import Mathlib

/-!
Shallow embedding of the object-detection controller of this repository
(`main_controller.py` and `camera_window/camera_window.py`), and proofs
about its detection-history buffer, smoothing step, overlay renderer,
detection loop and camera-window detection state.

Timestamps and confidences are embedded as rationals (`ℚ`): the Python
code computes with floats, but every comparison and mean the claims are
about is exact at the inputs considered.
-/

namespace ObjectDetection

/-- One entry of `ObjectDetectionController.detection_history`: the tuple
`(class_name, confidence, timestamp)` appended by
`update_detection_history` (main_controller.py line 221). -/
structure DetectionSample where
  label : String
  confidence : ℚ
  observed_at : ℚ
deriving DecidableEq, Repr

/-- `self.max_history = 10` (main_controller.py line 43). -/
def max_history : ℕ := 10

/-- The trailing window of `get_smoothed_detection`: samples of the last
2 seconds (main_controller.py line 241, the literal `2.0`). -/
def smoothing_window : ℚ := 2

/-- `ObjectDetectionController.update_detection_history`
(main_controller.py lines 213-225): append the new sample, then
`pop(0)` once when the length exceeds `max_history`. -/
def update_detection_history (history : List DetectionSample)
    (s : DetectionSample) : List DetectionSample :=
  let appended := history ++ [s]
  if max_history < appended.length then appended.drop 1 else appended

/-- The `recent_detections` list comprehension of `get_smoothed_detection`
(main_controller.py lines 239-242): keep `(name, conf)` for the samples
with `current_time - timestamp < 2.0`, in order. -/
def recentDetections (history : List DetectionSample) (now : ℚ) :
    List (String × ℚ) :=
  (history.filter (fun s => now - s.observed_at < smoothing_window)).map
    (fun s => (s.label, s.confidence))

/-- One step of building `class_counts`
(main_controller.py line 250: `class_counts[name] = class_counts.get(name, 0) + 1`).
A Python dict keeps insertion order: updating an existing key keeps its
position, a new key goes to the end. -/
def addCount (acc : List (String × ℕ)) (name : String) : List (String × ℕ) :=
  if acc.any (fun p => p.1 = name) then
    acc.map (fun p => if p.1 = name then (p.1, p.2 + 1) else p)
  else
    acc ++ [(name, 1)]

/-- The `class_counts` dict of `get_smoothed_detection`
(main_controller.py lines 248-250), as an insertion-ordered
association list. -/
def class_counts (recent : List (String × ℚ)) : List (String × ℕ) :=
  recent.foldl (fun acc p => addCount acc p.1) []

/-- CPython's `max(..., key=...)` scan: replace the current best only when
the next value is strictly greater, so on ties the earliest element wins. -/
def pickMax (best : String × ℕ) (l : List (String × ℕ)) : String × ℕ :=
  l.foldl (fun q r => if q.2 < r.2 then r else q) best

/-- `max(class_counts, key=class_counts.get)` (main_controller.py line 252)
over the insertion-ordered entries; `none` models the `ValueError` on an
empty dict, which `get_smoothed_detection` never reaches. -/
def maxByCount : List (String × ℕ) → Option (String × ℕ)
  | [] => none
  | p :: rest => some (pickMax p rest)

/-- `ObjectDetectionController.get_smoothed_detection`
(main_controller.py lines 227-258), with `time.time()` passed in as `now`. -/
def get_smoothed_detection (history : List DetectionSample) (now : ℚ) :
    String × ℚ :=
  if history = [] then ("No detection", 0)
  else
    let recent := recentDetections history now
    if recent = [] then ("No detection", 0)
    else
      match maxByCount (class_counts recent) with
      | none => ("No detection", 0)
      | some mc =>
        let confs := (recent.filter (fun p => p.1 = mc.1)).map (fun p => p.2)
        (mc.1, confs.sum / (confs.length : ℚ))

/-- The controller state the smoothing method can see; `get_smoothed_detection`
assigns to no attribute of `self`, so the method leaves it unchanged. -/
structure ControllerState where
  detection_history : List DetectionSample
deriving DecidableEq, Repr

/-- `get_smoothed_detection` as the Python method: result paired with the
state of `self` after the call (the body only reads `self.detection_history`). -/
def get_smoothed_detection_method (st : ControllerState) (now : ℚ) :
    (String × ℚ) × ControllerState :=
  (get_smoothed_detection st.detection_history now, st)

/-- Modelled from the spec: `snapshot_within(window_seconds, now)` as §4.1
words it, "the subsequence of samples whose `observed_at >= now -
window_seconds`, preserving relative order" (inclusive boundary), projected
to `(label, confidence)` pairs for comparison with `recentDetections`. -/
def snapshot_within_spec (history : List DetectionSample)
    (window_seconds now : ℚ) : List (String × ℚ) :=
  (history.filter (fun s => now - window_seconds ≤ s.observed_at)).map
    (fun s => (s.label, s.confidence))

/-- Number of samples of `recent` carrying a given label. -/
def countIn (recent : List (String × ℚ)) (name : String) : ℕ :=
  (recent.filter (fun p => p.1 = name)).length

/-- Index of the first sample of `recent` carrying a given label
(length of the list when the label is absent). -/
def firstIdx : List (String × ℚ) → String → ℕ
  | [], _ => 0
  | p :: rest, name => if p.1 = name then 0 else firstIdx rest name + 1

/-- An image buffer: `numpy` array of `height × width` pixels with a flat
byte list as contents. -/
structure Frame where
  height : ℕ
  width : ℕ
  data : List ℕ
deriving DecidableEq, Repr

/-- The default frame a read of an unallocated buffer id yields. -/
def emptyFrame : Frame := ⟨0, 0, []⟩

/-- A store of image buffers: the buffer id is the index into the list.
Python/numpy frames are mutable heap objects, so the renderer is embedded as
a state transformer over such a store to make mutation (or its absence)
observable. -/
abbrev BufStore := List Frame

/-- Read the frame held by a buffer id. -/
def getBuf (s : BufStore) (i : ℕ) : Frame := s.getD i emptyFrame

/-- `frame.copy()`: allocate a fresh buffer holding the given contents and
return the new store with the fresh buffer's id. -/
def allocBuf (s : BufStore) (f : Frame) : BufStore × ℕ := (s ++ [f], s.length)

/-- An in-place `cv2` drawing call on the buffer `i`: replace its contents by
`g` applied to them. -/
def mutateBuf (s : BufStore) (i : ℕ) (g : Frame → Frame) : BufStore :=
  s.set i (g (getBuf s i))

/-- The `cv2` drawing primitives the renderer calls, as pure
contents-transformers (their pixel semantics is external to this
repository, so the renderer is proved for every choice of them):
`rectangle img pt1 pt2 color thickness`, `putText img text org font_scale
color thickness`, `addWeighted src1 alpha src2 beta gamma` (writing into
`src2`'s buffer, as both call sites do), `getTextSize text font_scale
thickness`, and Python's `f"{confidence:.1%}"` formatting. -/
structure Cv2 where
  rectangle : Frame → ℤ × ℤ → ℤ × ℤ → ℕ × ℕ × ℕ → ℤ → Frame
  putText : Frame → String → ℤ × ℤ → ℚ → ℕ × ℕ × ℕ → ℕ → Frame
  addWeighted : Frame → ℚ → Frame → ℚ → ℚ → Frame
  getTextSize : String → ℚ → ℕ → ℕ × ℕ
  fmtPercent : ℚ → String

/-- A concrete executable choice of drawing primitives, standing in for the
external OpenCV library in witnesses. -/
def cv2impl : Cv2 where
  rectangle f _ _ _ _ := { f with data := f.data.map (fun b => (b + 1) % 256) }
  putText f t _ _ _ _ :=
    { f with data := f.data.map (fun b => (b + t.length) % 256) }
  addWeighted src _ dst _ _ :=
    { dst with data := dst.data.zipWith (fun a b => (a + b) / 2) src.data }
  getTextSize t _ _ := (10 * t.length, 20)
  fmtPercent q := toString (Rat.floor (q * 1000)) ++ "%"

/-- `CameraWindow.draw_confidence_bar` (camera_window.py lines 142-184):
four in-place draws on the buffer `fid` (the caller's `display_frame`). -/
def draw_confidence_bar (cv : Cv2) (s : BufStore) (fid : ℕ)
    (confidence : ℚ) (width height : ℕ) : BufStore :=
  let bar_width : ℤ := 300
  let bar_height : ℤ := 30
  let bar_x : ℤ := (width : ℤ) - bar_width - 20
  let bar_y : ℤ := 20
  let s1 := mutateBuf s fid (fun f =>
    cv.rectangle f (bar_x, bar_y) (bar_x + bar_width, bar_y + bar_height)
      (50, 50, 50) (-1))
  let confidence_width : ℤ := Rat.floor (bar_width * confidence)
  let bar_color : ℕ × ℕ × ℕ :=
    if (7 : ℚ)/10 < confidence then (0, 255, 0)
    else if (1 : ℚ)/2 < confidence then (0, 255, 255)
    else (0, 0, 255)
  let s2 := mutateBuf s1 fid (fun f =>
    cv.rectangle f (bar_x, bar_y) (bar_x + confidence_width, bar_y + bar_height)
      bar_color (-1))
  let s3 := mutateBuf s2 fid (fun f =>
    cv.rectangle f (bar_x, bar_y) (bar_x + bar_width, bar_y + bar_height)
      (255, 255, 255) 2)
  let confidence_percent := cv.fmtPercent confidence
  let ts := cv.getTextSize confidence_percent ((7 : ℚ)/10) 2
  let text_x : ℤ := bar_x + Int.fdiv (bar_width - (ts.1 : ℤ)) 2
  let text_y : ℤ := bar_y + Int.fdiv (bar_height + (ts.2 : ℤ)) 2
  mutateBuf s3 fid (fun f =>
    cv.putText f confidence_percent (text_x, text_y) ((7 : ℚ)/10)
      (255, 255, 255) 2)

/-- `CameraWindow.draw_frame_info` (camera_window.py lines 186-204): two
in-place text draws on the buffer `fid`. -/
def draw_frame_info (cv : Cv2) (s : BufStore) (fid : ℕ)
    (fps width height : ℕ) : BufStore :=
  let fps_text := "FPS: " ++ toString fps
  let resolution_text :=
    "Resolution: " ++ toString width ++ "x" ++ toString height
  let info_y : ℤ := (height : ℤ) - 20
  let s1 := mutateBuf s fid (fun f =>
    cv.putText f fps_text ((width : ℤ) - 150, info_y) ((1 : ℚ)/2)
      (255, 255, 255) 1)
  mutateBuf s1 fid (fun f =>
    cv.putText f resolution_text ((width : ℤ) - 150, info_y - 20) ((1 : ℚ)/2)
      (255, 255, 255) 1)

/-- `CameraWindow.draw_confidence_overlay` (camera_window.py lines 85-140)
over the buffer store: copy the input buffer `frame` (line 95), copy the
copy as `overlay` (line 106), draw the panel on `overlay`, alpha-blend it
into `display_frame` (line 111), draw the texts, bar and frame info on
`display_frame`, and return its buffer id. -/
def draw_confidence_overlay (cv : Cv2) (s : BufStore) (frame : ℕ)
    (current_detection : Option (String × ℚ)) (fps : ℕ) : BufStore × ℕ :=
  let s1 := (allocBuf s (getBuf s frame)).1
  let display_frame := (allocBuf s (getBuf s frame)).2
  let height := (getBuf s1 display_frame).height
  let width := (getBuf s1 display_frame).width
  let class_name := match current_detection with
    | some d => d.1
    | none => "No detection"
  let confidence : ℚ := match current_detection with
    | some d => d.2
    | none => 0
  let s2 := (allocBuf s1 (getBuf s1 display_frame)).1
  let overlay := (allocBuf s1 (getBuf s1 display_frame)).2
  let text_area_height : ℤ := 120
  let s3 := mutateBuf s2 overlay (fun f =>
    cv.rectangle f (10, 10) ((width : ℤ) - 10, text_area_height) (0, 0, 0) (-1))
  let s4 := mutateBuf s3 display_frame (fun f =>
    cv.addWeighted (getBuf s3 overlay) ((7 : ℚ)/10) f ((3 : ℚ)/10) 0)
  let detection_text := "Object: " ++ class_name
  let confidence_text := "Confidence: " ++ cv.fmtPercent confidence
  let status_text :=
    if (1 : ℚ)/2 < confidence then "Status: DETECTED" else "Status: NO DETECTION"
  let text_color : ℕ × ℕ × ℕ :=
    if (7 : ℚ)/10 < confidence then (0, 255, 0)
    else if (1 : ℚ)/2 < confidence then (0, 255, 255)
    else (0, 0, 255)
  let s5 := mutateBuf s4 display_frame (fun f =>
    cv.putText f detection_text (20, 35) ((7 : ℚ)/10) text_color 2)
  let s6 := mutateBuf s5 display_frame (fun f =>
    cv.putText f confidence_text (20, 60) ((7 : ℚ)/10) text_color 2)
  let s7 := mutateBuf s6 display_frame (fun f =>
    cv.putText f status_text (20, 85) ((7 : ℚ)/10) text_color 2)
  let s8 := draw_confidence_bar cv s7 display_frame confidence width height
  let s9 := draw_frame_info cv s8 display_frame fps width height
  (s9, display_frame)

/-- `ObjectDetectionController.draw_detection_info` (main_controller.py
lines 146-211) over the buffer store: same copy-then-draw discipline with
its own text and bar layout. -/
def draw_detection_info (cv : Cv2) (s : BufStore) (frame : ℕ)
    (class_name : String) (confidence : ℚ) : BufStore × ℕ :=
  let s1 := (allocBuf s (getBuf s frame)).1
  let display_frame := (allocBuf s (getBuf s frame)).2
  let width := (getBuf s1 display_frame).width
  let s2 := (allocBuf s1 (getBuf s1 display_frame)).1
  let overlay := (allocBuf s1 (getBuf s1 display_frame)).2
  let s3 := mutateBuf s2 overlay (fun f =>
    cv.rectangle f (10, 10) ((width : ℤ) - 10, 80) (0, 0, 0) (-1))
  let s4 := mutateBuf s3 display_frame (fun f =>
    cv.addWeighted (getBuf s3 overlay) ((7 : ℚ)/10) f ((3 : ℚ)/10) 0)
  let detection_text := "Object: " ++ class_name
  let confidence_text := "Confidence: " ++ cv.fmtPercent confidence
  let s5 := mutateBuf s4 display_frame (fun f =>
    cv.putText f detection_text (20, 40) ((7 : ℚ)/10) (0, 255, 0) 2)
  let s6 := mutateBuf s5 display_frame (fun f =>
    cv.putText f confidence_text (20, 65) ((7 : ℚ)/10) (0, 255, 0) 2)
  let bar_width : ℤ := 200
  let bar_height : ℤ := 20
  let bar_x : ℤ := (width : ℤ) - bar_width - 20
  let bar_y : ℤ := 20
  let s7 := mutateBuf s6 display_frame (fun f =>
    cv.rectangle f (bar_x, bar_y) (bar_x + bar_width, bar_y + bar_height)
      (50, 50, 50) (-1))
  let confidence_width : ℤ := Rat.floor (bar_width * confidence)
  let s8 := mutateBuf s7 display_frame (fun f =>
    cv.rectangle f (bar_x, bar_y) (bar_x + confidence_width, bar_y + bar_height)
      (0, 255, 0) (-1))
  let s9 := mutateBuf s8 display_frame (fun f =>
    cv.rectangle f (bar_x, bar_y) (bar_x + bar_width, bar_y + bar_height)
      (255, 255, 255) 2)
  (s9, display_frame)

/-- The error the render raises on a bad input frame: on `None` the
attribute access `frame.copy()` raises `AttributeError` (line 95); on an
empty array the `cv2` drawing calls fail their non-empty assertion
(line 110). The spec calls both `InvalidFrame`. -/
inductive RenderError where
  | invalidFrame : RenderError
deriving DecidableEq, Repr

/-- `draw_confidence_overlay` as called with a possibly-null frame: error
out exactly where the Python body would raise, otherwise run the drawing
on a one-buffer store and return the rendered frame. -/
def draw_confidence_overlay_run (cv : Cv2) (frame : Option Frame)
    (current_detection : Option (String × ℚ)) (fps : ℕ) :
    Except RenderError Frame :=
  match frame with
  | none => Except.error RenderError.invalidFrame
  | some f =>
    if f.data.length = 0 then Except.error RenderError.invalidFrame
    else
      let r := draw_confidence_overlay cv [f] 0 current_detection fps
      Except.ok (getBuf r.1 r.2)

/-- `detection_interval = 0.5` (main_controller.py line 268). -/
def detection_interval : ℚ := 1/2

/-- The detection loop's per-tick state (main_controller.py lines 265-268
and the attributes the loop body writes): whether the loop keeps running,
the history buffer, the time of the last inference, and a counter of
`model.predict` invocations. -/
structure LoopState where
  is_running : Bool
  detection_history : List DetectionSample
  last_detection_time : ℚ
  predict_count : ℕ
deriving DecidableEq, Repr

/-- The loop state on entering `run_detection_loop`: `is_running = True`,
empty history, `last_detection_time = 0`. -/
def initLoopState : LoopState :=
  { is_running := true, detection_history := [], last_detection_time := 0,
    predict_count := 0 }

/-- Everything one iteration of the `while` body observes from outside:
the tick's `time.time()`, whether a `KeyboardInterrupt` arrives, the frame
poll's outcome (exception, `None`, or a frame), whether
`self.model.is_loaded()`, the classifier call's outcome (exception or a
`(label, confidence)` pair), whether the render/display calls raise, and
the `cv2.waitKey` key code. -/
structure TickInput where
  now : ℚ
  kbInterrupt : Bool
  frameResult : Except Unit (Option Frame)
  modelLoaded : Bool
  predictResult : Except Unit (String × ℚ)
  renderFails : Bool
  key : Option ℕ

/-- The keyboard branch of the loop body (main_controller.py lines 310-317):
`ord('q') = 113` stops the loop, `ord('s') = 115` saves a frame and
changes no loop state. -/
def handleKey (st : LoopState) (key : Option ℕ) : LoopState :=
  if key = some 113 then { st with is_running := false } else st

/-- One iteration of the `while self.is_running` body of
`ObjectDetectionController.run_detection_loop` (main_controller.py lines
270-326). Any exception from the frame poll, the classifier or the
render/display calls lands in the `except Exception` arm (lines 324-326),
which logs, sleeps and lets the loop continue; `KeyboardInterrupt`
(lines 321-323) clears `is_running`. Updates made before a later failure
persist, as they do in Python. -/
def stepTick (st : LoopState) (t : TickInput) : LoopState :=
  if st.is_running = false then st
  else if t.kbInterrupt then { st with is_running := false }
  else
    match t.frameResult with
    | Except.error _ => st
    | Except.ok none => st
    | Except.ok (some _) =>
      if detection_interval ≤ t.now - st.last_detection_time then
        if t.modelLoaded then
          match t.predictResult with
          | Except.error _ => st
          | Except.ok pr =>
            let st1 : LoopState := { st with
              detection_history :=
                update_detection_history st.detection_history
                  ⟨pr.1, pr.2, t.now⟩,
              last_detection_time := t.now,
              predict_count := st.predict_count + 1 }
            if t.renderFails then st1 else handleKey st1 t.key
        else
          if t.renderFails then st else handleKey st t.key
      else
        if t.renderFails then st else handleKey st t.key

/-- A tick whose frame poll raises, all other stages healthy. -/
def frameFailTick : TickInput :=
  { now := 1, kbInterrupt := false, frameResult := Except.error (),
    modelLoaded := true, predictResult := Except.ok ("object", 1/2),
    renderFails := false, key := none }

/-- A tick whose classifier call raises, all other stages healthy. -/
def predictFailTick : TickInput :=
  { now := 1, kbInterrupt := false,
    frameResult := Except.ok (some ⟨480, 640, [0]⟩),
    modelLoaded := true, predictResult := Except.error (),
    renderFails := false, key := none }

/-- A fully healthy tick at time `τ`: a frame arrives, the model is
loaded, prediction succeeds, nothing raises, no key pressed. -/
def mkThrottleTick (τ : ℚ) : TickInput :=
  { now := τ, kbInterrupt := false,
    frameResult := Except.ok (some ⟨480, 640, [0]⟩),
    modelLoaded := true, predictResult := Except.ok ("object", 9/10),
    renderFails := false, key := none }

/-- Tick times of a 2.0-second run at one tick per 0.05 s:
`t0, t0 + 0.05, …, t0 + 1.95`. -/
def throttleTimes (t0 : ℚ) : List ℚ :=
  (List.range 40).map (fun k => t0 + (k : ℚ)/20)

/-- Run the detection loop over the 40 ticks of a 2.0-second span. -/
def runThrottle (t0 : ℚ) : LoopState :=
  ((throttleTimes t0).map mkThrottleTick).foldl stepTick initLoopState

/-- The detection state of `CameraWindow` (camera_window.py line 33:
`self.current_detection = None`). -/
structure CameraWindowState where
  current_detection : Option (String × ℚ)
deriving DecidableEq, Repr

/-- A `CameraWindow` fresh out of `__init__`. -/
def initCameraWindow : CameraWindowState := { current_detection := none }

/-- `CameraWindow.update_detection` (camera_window.py lines 74-83): store
the `(class_name, confidence)` tuple. -/
def update_detection (st : CameraWindowState) (class_name : String)
    (confidence : ℚ) : CameraWindowState :=
  { st with current_detection := some (class_name, confidence) }

/-- A Python runtime error. -/
inductive PyError where
  | attributeError (msg : String)
deriving DecidableEq, Repr

/-- The call `self.current_detection.copy()` (camera_window.py line 297):
`current_detection` holds a tuple, and Python tuples have no `copy`
method, so the attribute lookup raises `AttributeError`. -/
def tupleCopy (t : String × ℚ) : Except PyError (String × ℚ) :=
  Except.error (PyError.attributeError "tuple object has no attribute copy")

/-- `CameraWindow.get_current_detection` (camera_window.py lines 289-297):
`return self.current_detection.copy() if self.current_detection else None`.
A stored tuple is non-empty, hence truthy, so the `.copy()` branch runs
whenever a detection has been stored. -/
def get_current_detection (st : CameraWindowState) :
    Except PyError (Option (String × ℚ)) :=
  match st.current_detection with
  | none => Except.ok none
  | some d => Except.map some (tupleCopy d)

/-- Invariant tying the insertion-ordered `class_counts` association list to
the processed prefix `p` of `recent`: every entry records the exact number of
samples with its label, every label occurring in `p` has an entry, and
entries are ordered by the index of the label's first sample. -/
def CCInv (p : List (String × ℚ)) (acc : List (String × ℕ)) : Prop :=
  (∀ kc ∈ acc, 0 < countIn p kc.1 ∧ kc.2 = countIn p kc.1) ∧
  (∀ name, 0 < countIn p name → ∃ c, (name, c) ∈ acc) ∧
  acc.Pairwise (fun a b => firstIdx p a.1 < firstIdx p b.1)

theorem countIn_cons (p : String × ℚ) (l : List (String × ℚ)) (name : String) :
    countIn (p :: l) name = (if p.1 = name then 1 else 0) + countIn l name := by
  simp only [countIn, List.filter_cons]
  split <;> simp_all <;> omega

theorem countIn_append (l₁ l₂ : List (String × ℚ)) (name : String) :
    countIn (l₁ ++ l₂) name = countIn l₁ name + countIn l₂ name := by
  simp [countIn, List.filter_append]

theorem countIn_single (x : String × ℚ) (name : String) :
    countIn [x] name = if x.1 = name then 1 else 0 := by
  rw [show [x] = x :: [] from rfl, countIn_cons]
  simp [countIn]

theorem firstIdx_append_of_pos (l : List (String × ℚ)) (x : String × ℚ)
    (name : String) (hc : 0 < countIn l name) :
    firstIdx (l ++ [x]) name = firstIdx l name := by
  induction l with
  | nil => simp [countIn] at hc
  | cons p rest ih =>
    by_cases hp : p.1 = name
    · simp [firstIdx, hp]
    · have hrest : 0 < countIn rest name := by
        rw [countIn_cons] at hc
        simpa [hp] using hc
      simp [firstIdx, hp, ih hrest]

theorem firstIdx_lt_of_pos (l : List (String × ℚ)) (name : String)
    (hc : 0 < countIn l name) : firstIdx l name < l.length := by
  induction l with
  | nil => simp [countIn] at hc
  | cons p rest ih =>
    by_cases hp : p.1 = name
    · simp [firstIdx, hp]
    · have hrest : 0 < countIn rest name := by
        rw [countIn_cons] at hc
        simpa [hp] using hc
      simp [firstIdx, hp]
      exact ih hrest

theorem firstIdx_append_last (l : List (String × ℚ)) (x : String × ℚ)
    (hc : countIn l x.1 = 0) : firstIdx (l ++ [x]) x.1 = l.length := by
  induction l with
  | nil => simp [firstIdx]
  | cons p rest ih =>
    have hp : p.1 ≠ x.1 := by
      intro he
      rw [countIn_cons] at hc
      simp [he] at hc
    have hrest : countIn rest x.1 = 0 := by
      rw [countIn_cons] at hc
      simpa [hp] using hc
    simp [firstIdx, hp, ih hrest]

theorem ccInv_nil : CCInv [] [] := by
  refine ⟨by simp, ?_, List.Pairwise.nil⟩
  intro name hn
  simp [countIn] at hn

theorem ccInv_step (p : List (String × ℚ)) (x : String × ℚ)
    (acc : List (String × ℕ)) (h : CCInv p acc) :
    CCInv (p ++ [x]) (addCount acc x.1) := by
  obtain ⟨hval, hcomp, hpw⟩ := h
  unfold addCount
  by_cases hmem : acc.any (fun q => q.1 = x.1) = true
  · rw [if_pos hmem]
    refine ⟨?_, ?_, ?_⟩
    · intro kc hkc
      obtain ⟨kc₀, hkc₀, rfl⟩ := List.mem_map.mp hkc
      obtain ⟨hpos₀, hv₀⟩ := hval kc₀ hkc₀
      by_cases hk : kc₀.1 = x.1
      · simp only [if_pos hk]
        rw [countIn_append, countIn_single, if_pos hk.symm]
        constructor
        · omega
        · omega
      · simp only [if_neg hk]
        rw [countIn_append, countIn_single, if_neg (fun he => hk he.symm)]
        exact ⟨by omega, by omega⟩
    · intro name hn
      rw [countIn_append, countIn_single] at hn
      by_cases hnx : name = x.1
      · obtain ⟨q, hq, hq1⟩ := List.any_eq_true.mp hmem
        have hq1' : q.1 = x.1 := by simpa using hq1
        refine ⟨q.2 + 1, ?_⟩
        refine List.mem_map.mpr ⟨q, hq, ?_⟩
        simp [hq1', hnx]
      · have hn' : 0 < countIn p name := by
          have h0 : (if x.1 = name then 1 else 0) = 0 :=
            if_neg (fun he => hnx he.symm)
          omega
        obtain ⟨c, hc⟩ := hcomp name hn'
        refine ⟨c, ?_⟩
        refine List.mem_map.mpr ⟨(name, c), hc, ?_⟩
        simp [hnx]
    · rw [List.pairwise_map]
      refine hpw.imp_of_mem ?_
      intro a b ha hb hr
      have hfa : (if a.1 = x.1 then (a.1, a.2 + 1) else a).1 = a.1 := by
        split <;> rfl
      have hfb : (if b.1 = x.1 then (b.1, b.2 + 1) else b).1 = b.1 := by
        split <;> rfl
      rw [hfa, hfb, firstIdx_append_of_pos _ _ _ (hval a ha).1,
        firstIdx_append_of_pos _ _ _ (hval b hb).1]
      exact hr
  · rw [if_neg hmem]
    have hx0 : countIn p x.1 = 0 := by
      by_contra h0
      obtain ⟨c, hc⟩ := hcomp x.1 (Nat.pos_of_ne_zero h0)
      exact hmem (List.any_eq_true.mpr ⟨(x.1, c), hc, by simp⟩)
    refine ⟨?_, ?_, ?_⟩
    · intro kc hkc
      rcases List.mem_append.mp hkc with h1 | h2
      · obtain ⟨hpos₀, hv₀⟩ := hval kc h1
        have hk : kc.1 ≠ x.1 := by
          intro he
          exact hmem (List.any_eq_true.mpr ⟨kc, h1, by simp [he]⟩)
        rw [countIn_append, countIn_single, if_neg (fun he => hk he.symm)]
        exact ⟨by omega, by omega⟩
      · have : kc = (x.1, 1) := by simpa using h2
        subst this
        rw [countIn_append, countIn_single, if_pos rfl, hx0]
        exact ⟨by omega, by omega⟩
    · intro name hn
      rw [countIn_append, countIn_single] at hn
      by_cases hnx : name = x.1
      · exact ⟨1, List.mem_append_right _ (by simp [hnx])⟩
      · have hn' : 0 < countIn p name := by
          have h0 : (if x.1 = name then 1 else 0) = 0 :=
            if_neg (fun he => hnx he.symm)
          omega
        obtain ⟨c, hc⟩ := hcomp name hn'
        exact ⟨c, List.mem_append_left _ hc⟩
    · rw [List.pairwise_append]
      refine ⟨?_, by simp, ?_⟩
      · refine hpw.imp_of_mem ?_
        intro a b ha hb hr
        rw [firstIdx_append_of_pos _ _ _ (hval a ha).1,
          firstIdx_append_of_pos _ _ _ (hval b hb).1]
        exact hr
      · intro a ha b hb
        have hb' : b = (x.1, 1) := by simpa using hb
        subst hb'
        rw [firstIdx_append_of_pos _ _ _ (hval a ha).1, firstIdx_append_last _ _ hx0]
        exact firstIdx_lt_of_pos _ _ (hval a ha).1

theorem ccInv_fold (l : List (String × ℚ)) :
    ∀ (p : List (String × ℚ)) (acc : List (String × ℕ)), CCInv p acc →
    CCInv (p ++ l) (l.foldl (fun a q => addCount a q.1) acc) := by
  induction l with
  | nil => intro p acc h; simpa using h
  | cons x xs ih =>
    intro p acc h
    have h2 := ccInv_step p x acc h
    have h3 := ih (p ++ [x]) (addCount acc x.1) h2
    rw [List.foldl_cons]
    rw [show p ++ x :: xs = (p ++ [x]) ++ xs by simp]
    exact h3

theorem ccInv_classCounts (r : List (String × ℚ)) : CCInv r (class_counts r) := by
  have h := ccInv_fold r [] [] ccInv_nil
  simpa [class_counts] using h

theorem pickMax_split (l : List (String × ℕ)) :
    ∀ best : String × ℕ,
    ∃ l₁ l₂, best :: l = l₁ ++ pickMax best l :: l₂ ∧
      (∀ q ∈ l₁, q.2 < (pickMax best l).2) ∧
      (∀ q ∈ l₂, q.2 ≤ (pickMax best l).2) := by
  induction l with
  | nil =>
    intro best
    exact ⟨[], [], by simp [pickMax], by simp, by simp⟩
  | cons r rest ih =>
    intro best
    by_cases hc : best.2 < r.2
    · obtain ⟨l₁, l₂, heq, hlt, hle⟩ := ih r
      have hpm : pickMax best (r :: rest) = pickMax r rest := by
        simp [pickMax, hc]
      have hr : r.2 ≤ (pickMax r rest).2 := by
        cases l₁ with
        | nil =>
          have : pickMax r rest = r := by
            simpa using congrArg (fun t => t.headI) heq.symm
          rw [this]
        | cons a l₁' =>
          have ha : a = r := by
            have := congrArg (fun t => t.headI) heq
            simpa using this.symm
          subst ha
          exact (hlt a (by simp)).le
      refine ⟨best :: l₁, l₂, ?_, ?_, ?_⟩
      · rw [hpm]
        simpa using heq
      · intro q hq
        rcases List.mem_cons.mp hq with hq1 | hq2
        · subst hq1
          rw [hpm]
          exact lt_of_lt_of_le hc hr
        · rw [hpm]
          exact hlt q hq2
      · rw [hpm]
        exact hle
    · obtain ⟨l₁, l₂, heq, hlt, hle⟩ := ih best
      have hpm : pickMax best (r :: rest) = pickMax best rest := by
        simp [pickMax, hc]
      cases l₁ with
      | nil =>
        have hm_eq : pickMax best rest = best ∧ l₂ = rest := by
          rw [List.nil_append] at heq
          exact ⟨(List.cons.injEq _ _ _ _ ▸ heq).1.symm,
            ((List.cons.injEq _ _ _ _ ▸ heq).2).symm⟩
        refine ⟨[], r :: rest, ?_, by simp, ?_⟩
        · rw [hpm, hm_eq.1]
          simp
        · intro q hq
          rcases List.mem_cons.mp hq with hq1 | hq2
          · subst hq1
            rw [hpm, hm_eq.1]
            omega
          · rw [hpm]
            exact hle q (hm_eq.2 ▸ hq2)
      | cons a l₁' =>
        have ha : a = best ∧ rest = l₁' ++ pickMax best rest :: l₂ := by
          rw [List.cons_append] at heq
          exact ⟨(List.cons.injEq _ _ _ _ ▸ heq).1.symm,
            (List.cons.injEq _ _ _ _ ▸ heq).2⟩
        refine ⟨best :: r :: l₁', l₂, ?_, ?_, ?_⟩
        · rw [hpm]
          simp only [List.cons_append]
          rw [← ha.2]
        · intro q hq
          have hbest : best.2 < (pickMax best rest).2 := by
            have := hlt a (by simp)
            rw [ha.1] at this
            exact this
          rcases List.mem_cons.mp hq with hq1 | hq2
          · subst hq1
            rw [hpm]
            exact hbest
          · rcases List.mem_cons.mp hq2 with hq3 | hq4
            · subst hq3
              rw [hpm]
              omega
            · rw [hpm]
              exact hlt q (by simp [hq4])
        · rw [hpm]
          exact hle

/-- C1: for the history holding exactly the samples (A, 0.9, t=0),
(A, 0.8, t=0.5), (B, 0.95, t=1.0) — three samples, so a capacity of 3 is
not exceeded — smoothing with the 2.0 s window evaluated at now = 1.0
returns ("A", 0.85): A has two votes to B's one, and 0.85 is the mean of
0.9 and 0.8, averaged over the majority label's samples only. -/
theorem scenario_smoothed_A_085 :
    get_smoothed_detection
      [⟨"A", 9/10, 0⟩, ⟨"A", 4/5, 1/2⟩, ⟨"B", 19/20, 1⟩] 1 = ("A", 17/20) := by
  norm_num [get_smoothed_detection, recentDetections, smoothing_window,
    class_counts, addCount, maxByCount, pickMax]
  simp
  norm_num

/-- C2: whenever the trailing window is non-empty, the label smoothing
returns occurs in the window, carries the maximal sample count, and among
all labels tied at that maximal count its first sample is the earliest
(its first index is minimal) — in particular, with equal counts of A and B
and A's first sample preceding B's, the result is A (see the witness). -/
theorem tie_break_earliest (h : List DetectionSample) (now : ℚ)
    (hne : recentDetections h now ≠ []) :
    0 < countIn (recentDetections h now) (get_smoothed_detection h now).1 ∧
    (∀ name, countIn (recentDetections h now) name ≤
      countIn (recentDetections h now) (get_smoothed_detection h now).1) ∧
    (∀ name, 0 < countIn (recentDetections h now) name →
      countIn (recentDetections h now) name =
        countIn (recentDetections h now) (get_smoothed_detection h now).1 →
      firstIdx (recentDetections h now) (get_smoothed_detection h now).1 ≤
        firstIdx (recentDetections h now) name) := by
  have hh : h ≠ [] := by
    intro he
    exact hne (by simp [recentDetections, he])
  obtain ⟨y, ys, hr⟩ : ∃ y ys, recentDetections h now = y :: ys := by
    cases hcase : recentDetections h now with
    | nil => exact absurd hcase hne
    | cons a b => exact ⟨a, b, rfl⟩
  obtain ⟨hval, hcomp, hpw⟩ := ccInv_classCounts (recentDetections h now)
  have hypos : 0 < countIn (recentDetections h now) y.1 := by
    rw [hr, countIn_cons]
    simp
  obtain ⟨c, hc⟩ := hcomp y.1 hypos
  obtain ⟨q, qs, hcnt⟩ :
      ∃ q qs, class_counts (recentDetections h now) = q :: qs := by
    cases hcq : class_counts (recentDetections h now) with
    | nil => rw [hcq] at hc; simp at hc
    | cons a b => exact ⟨a, b, rfl⟩
  have hmax : maxByCount (class_counts (recentDetections h now)) =
      some (pickMax q qs) := by
    rw [hcnt]; rfl
  obtain ⟨l₁, l₂, hsplit, hlt, hle⟩ := pickMax_split qs q
  have hres1 : (get_smoothed_detection h now).1 = (pickMax q qs).1 := by
    simp only [get_smoothed_detection, if_neg hh, if_neg hne, hmax]
  have hm_mem : pickMax q qs ∈ class_counts (recentDetections h now) := by
    rw [hcnt, hsplit]
    exact List.mem_append_right _ (List.mem_cons_self _ _)
  obtain ⟨hm_pos, hm_val⟩ := hval _ hm_mem
  have hall : ∀ kc ∈ class_counts (recentDetections h now),
      kc.2 ≤ (pickMax q qs).2 := by
    rw [hcnt, hsplit]
    intro kc hkc
    rcases List.mem_append.mp hkc with h1 | h2
    · exact (hlt kc h1).le
    · rcases List.mem_cons.mp h2 with h3 | h4
      · rw [h3]
      · exact hle kc h4
  refine ⟨?_, ?_, ?_⟩
  · rw [hres1]; exact hm_pos
  · intro name
    rw [hres1]
    by_cases h0 : 0 < countIn (recentDetections h now) name
    · obtain ⟨c', hc'⟩ := hcomp name h0
      have hv := (hval _ hc').2
      have hle' := hall _ hc'
      simp only at hv hle'
      omega
    · have hz : countIn (recentDetections h now) name = 0 := by omega
      rw [hz, ← hm_val]
      omega
  · intro name hpos htie
    rw [hres1] at htie ⊢
    obtain ⟨c', hc'⟩ := hcomp name hpos
    have hv : c' = countIn (recentDetections h now) name := (hval _ hc').2
    have hcm : c' = (pickMax q qs).2 := by omega
    have hmem2 : (name, c') ∈ l₁ ++ pickMax q qs :: l₂ := by
      rw [← hsplit, ← hcnt]
      exact hc'
    rcases List.mem_append.mp hmem2 with h1 | h2
    · have := hlt _ h1
      simp only at this
      omega
    · rcases List.mem_cons.mp h2 with h3 | h4
      · have : name = (pickMax q qs).1 := congrArg Prod.fst h3
        rw [this]
      · have hpw' := hpw
        rw [hcnt, hsplit] at hpw'
        have hp2 := (List.pairwise_append.mp hpw').2.1
        have := (List.pairwise_cons.mp hp2).1 (name, c') h4
        simp only at this
        exact this.le

/-- Witness for C2 at the stability test's input: equal counts of A and B
with A's sample first, and smoothing at now = 0 returns a label whose
first index is at most B's. -/
theorem tie_break_earliest_witness :
    firstIdx (recentDetections [⟨"A", 1/2, 0⟩, ⟨"B", 1/2, 0⟩] 0)
        (get_smoothed_detection [⟨"A", 1/2, 0⟩, ⟨"B", 1/2, 0⟩] 0).1 ≤
      firstIdx (recentDetections [⟨"A", 1/2, 0⟩, ⟨"B", 1/2, 0⟩] 0) "B" :=
  (tie_break_earliest [⟨"A", 1/2, 0⟩, ⟨"B", 1/2, 0⟩] 0
      (by norm_num [recentDetections, smoothing_window]; simp)).2.2 "B"
    (by norm_num [recentDetections, smoothing_window, countIn]; simp)
    (by
      have h1 : (get_smoothed_detection
          [⟨"A", 1/2, 0⟩, ⟨"B", 1/2, 0⟩] 0).1 = "A" := by
        norm_num [get_smoothed_detection, recentDetections, smoothing_window,
          class_counts, addCount, maxByCount, pickMax]
        simp
      rw [h1]
      norm_num [recentDetections, smoothing_window, countIn]
      simp)

/-- C3 counterexample: a sample exactly `window_seconds` old is excluded
by the code's strict `current_time - timestamp < 2.0` filter, while the
claimed inclusive `observed_at >= now - window_seconds` boundary would
include it — so at history [("A", 0.9, t=0)] and now = 2 the two
disagree. -/
theorem window_boundary_excluded :
    recentDetections [⟨"A", 9/10, 0⟩] 2 ≠
      snapshot_within_spec [⟨"A", 9/10, 0⟩] smoothing_window 2 := by
  norm_num [recentDetections, snapshot_within_spec, smoothing_window]

/-- C3 (amended): the smoothing step aggregates exactly over the samples
with `observed_at > now - window_seconds` — strict boundary, a sample
exactly `window_seconds` old is excluded — in their original relative
order (the aggregated list is a sublist of the projected history), and
computing it does not mutate the controller's state. -/
theorem window_filter_characterization (h : List DetectionSample) (now : ℚ) :
    recentDetections h now =
      (h.filter (fun s => now - smoothing_window < s.observed_at)).map
        (fun s => (s.label, s.confidence)) ∧
    (recentDetections h now).Sublist
      (h.map (fun s => (s.label, s.confidence))) ∧
    ∀ st : ControllerState, (get_smoothed_detection_method st now).2 = st := by
  refine ⟨?_, ?_, fun st => rfl⟩
  · unfold recentDetections
    congr 1
    apply List.filter_congr
    intro s _
    simp only [decide_eq_decide]
    constructor
    · intro hlt; linarith
    · intro hlt; linarith
  · exact (List.filter_sublist h).map _

/-- C4: whenever no sample falls within the trailing window — in
particular for an empty history — smoothing returns exactly
("No detection", 0.0). -/
theorem empty_window_no_detection (h : List DetectionSample) (now : ℚ)
    (hrec : recentDetections h now = []) :
    get_smoothed_detection h now = ("No detection", 0) := by
  by_cases hh : h = []
  · simp [get_smoothed_detection, hh]
  · simp [get_smoothed_detection, hh, hrec]

/-- Witness for C4: a single sample 10 seconds in the past leaves the
2-second window empty, and smoothing returns ("No detection", 0.0). -/
theorem empty_window_no_detection_witness :
    get_smoothed_detection [⟨"A", 1, 0⟩] 10 = ("No detection", 0) :=
  empty_window_no_detection [⟨"A", 1, 0⟩] 10
    (by norm_num [recentDetections, smoothing_window])

/-- One append keeps the history within capacity. -/
theorem update_len_le (h : List DetectionSample) (s : DetectionSample)
    (hle : h.length ≤ max_history) :
    (update_detection_history h s).length ≤ max_history := by
  simp only [update_detection_history]
  split
  · simp only [List.length_drop, List.length_append, List.length_cons,
      List.length_nil]
    omega
  · next hc =>
    simp only [List.length_append, List.length_cons, List.length_nil] at hc ⊢
    omega

/-- C5: every sequence of appends starting from the empty history keeps
the buffer within the fixed capacity (`max_history = 10`); an append at
full capacity evicts exactly the single oldest sample and puts the new
one at the tail, and an append below capacity evicts nothing — FIFO order
is preserved across every append. -/
theorem history_capacity (samples : List DetectionSample) :
    (samples.foldl update_detection_history []).length ≤ max_history ∧
    (∀ (h : List DetectionSample) (s : DetectionSample),
      h.length = max_history →
      update_detection_history h s = h.drop 1 ++ [s]) ∧
    (∀ (h : List DetectionSample) (s : DetectionSample),
      h.length < max_history → update_detection_history h s = h ++ [s]) := by
  refine ⟨?_, ?_, ?_⟩
  · have haux : ∀ (l : List DetectionSample) (h : List DetectionSample),
        h.length ≤ max_history →
        (l.foldl update_detection_history h).length ≤ max_history := by
      intro l
      induction l with
      | nil => intro h hle; simpa using hle
      | cons x xs ih =>
        intro h hle
        rw [List.foldl_cons]
        exact ih _ (update_len_le h x hle)
    exact haux samples [] (by simp)
  · intro h s hlen
    simp only [update_detection_history]
    rw [if_pos (by simp [hlen, max_history])]
    exact List.drop_append_of_le_length (by simp [hlen, max_history])
  · intro h s hlen
    simp only [update_detection_history]
    rw [if_neg (by simp; omega)]

theorem getBuf_mutateBuf_ne (s : BufStore) (i j : ℕ) (g : Frame → Frame)
    (h : j ≠ i) : getBuf (mutateBuf s i g) j = getBuf s j := by
  simp only [getBuf, mutateBuf, List.getD_eq_getElem?_getD]
  rw [List.getElem?_set_ne (fun he => h he.symm)]

theorem getBuf_append_lt (s : BufStore) (f : Frame) (j : ℕ)
    (h : j < s.length) : getBuf (s ++ [f]) j = getBuf s j :=
  List.getD_append _ _ _ _ h

theorem bar_preserves (cv : Cv2) (s : BufStore) (fid : ℕ) (confidence : ℚ)
    (width height j : ℕ) (h : j ≠ fid) :
    getBuf (draw_confidence_bar cv s fid confidence width height) j =
      getBuf s j := by
  simp only [draw_confidence_bar]
  rw [getBuf_mutateBuf_ne _ _ _ _ h, getBuf_mutateBuf_ne _ _ _ _ h,
    getBuf_mutateBuf_ne _ _ _ _ h, getBuf_mutateBuf_ne _ _ _ _ h]

theorem frame_info_preserves (cv : Cv2) (s : BufStore) (fid : ℕ)
    (fps width height j : ℕ) (h : j ≠ fid) :
    getBuf (draw_frame_info cv s fid fps width height) j = getBuf s j := by
  simp only [draw_frame_info]
  rw [getBuf_mutateBuf_ne _ _ _ _ h, getBuf_mutateBuf_ne _ _ _ _ h]

/-- C6: both overlay renderers copy the input frame first and draw only on
the copy (and on a scratch overlay buffer), so for every choice of drawing
primitives, every buffer store and every valid input buffer id, the
caller's input buffer holds exactly the same bytes after the call. -/
theorem render_no_mutation (cv : Cv2) (s : BufStore) (fid : ℕ)
    (det : Option (String × ℚ)) (fps : ℕ) (class_name : String)
    (confidence : ℚ) (hfid : fid < s.length) :
    getBuf (draw_confidence_overlay cv s fid det fps).1 fid = getBuf s fid ∧
    getBuf (draw_detection_info cv s fid class_name confidence).1 fid =
      getBuf s fid := by
  have h1 : fid ≠ s.length := by omega
  have h2 : fid ≠ s.length + 1 := by omega
  constructor
  · simp only [draw_confidence_overlay, allocBuf, List.length_append,
      List.length_cons, List.length_nil]
    rw [frame_info_preserves _ _ _ _ _ _ _ h1, bar_preserves _ _ _ _ _ _ _ h1,
      getBuf_mutateBuf_ne _ _ _ _ h1, getBuf_mutateBuf_ne _ _ _ _ h1,
      getBuf_mutateBuf_ne _ _ _ _ h1, getBuf_mutateBuf_ne _ _ _ _ h1]
    rw [getBuf_mutateBuf_ne _ _ _ _ h2]
    rw [getBuf_append_lt _ _ _ (by simp; omega), getBuf_append_lt _ _ _ hfid]
  · simp only [draw_detection_info, allocBuf, List.length_append,
      List.length_cons, List.length_nil]
    rw [getBuf_mutateBuf_ne _ _ _ _ h1, getBuf_mutateBuf_ne _ _ _ _ h1,
      getBuf_mutateBuf_ne _ _ _ _ h1, getBuf_mutateBuf_ne _ _ _ _ h1,
      getBuf_mutateBuf_ne _ _ _ _ h1, getBuf_mutateBuf_ne _ _ _ _ h1]
    rw [getBuf_mutateBuf_ne _ _ _ _ h2]
    rw [getBuf_append_lt _ _ _ (by simp; omega), getBuf_append_lt _ _ _ hfid]

/-- Witness for C6: rendering a concrete 2×2 frame with the concrete
drawing primitives leaves the input buffer unchanged, for both renderers. -/
theorem render_no_mutation_witness :
    getBuf (draw_confidence_overlay cv2impl [⟨2, 2, [1, 2, 3, 4]⟩] 0
        (some ("cat", 3/4)) 30).1 0 = getBuf [⟨2, 2, [1, 2, 3, 4]⟩] 0 ∧
    getBuf (draw_detection_info cv2impl [⟨2, 2, [1, 2, 3, 4]⟩] 0
        "cat" (3/4)).1 0 = getBuf [⟨2, 2, [1, 2, 3, 4]⟩] 0 :=
  render_no_mutation cv2impl [⟨2, 2, [1, 2, 3, 4]⟩] 0 (some ("cat", 3/4)) 30
    "cat" (3/4) (by simp)

/-- C7: the overlay render fails exactly on a null or empty input frame —
there it signals `InvalidFrame` — and succeeds on every non-null,
non-empty frame, whatever the external drawing primitives do. -/
theorem render_failure_modes (cv : Cv2) (fr : Option Frame)
    (det : Option (String × ℚ)) (fps : ℕ) :
    (fr = none →
      draw_confidence_overlay_run cv fr det fps =
        Except.error RenderError.invalidFrame) ∧
    (∀ f : Frame, fr = some f → f.data.length = 0 →
      draw_confidence_overlay_run cv fr det fps =
        Except.error RenderError.invalidFrame) ∧
    (∀ f : Frame, fr = some f → f.data.length ≠ 0 →
      ∃ out, draw_confidence_overlay_run cv fr det fps = Except.ok out) := by
  refine ⟨?_, ?_, ?_⟩
  · intro he
    subst he
    rfl
  · intro f he hz
    subst he
    simp [draw_confidence_overlay_run, hz]
  · intro f he hz
    subst he
    simp only [draw_confidence_overlay_run]
    rw [if_neg hz]
    exact ⟨_, rfl⟩

/-- Witness for C7: a concrete non-empty 2×2 frame renders successfully,
and the null frame yields `InvalidFrame`. -/
theorem render_failure_modes_witness :
    (∃ out, draw_confidence_overlay_run cv2impl (some ⟨2, 2, [1, 2, 3, 4]⟩)
      none 30 = Except.ok out) ∧
    draw_confidence_overlay_run cv2impl none none 30 =
      Except.error RenderError.invalidFrame :=
  ⟨(render_failure_modes cv2impl (some ⟨2, 2, [1, 2, 3, 4]⟩) none 30).2.2
      ⟨2, 2, [1, 2, 3, 4]⟩ rfl (by simp),
    (render_failure_modes cv2impl none none 30).1 rfl⟩

theorem handleKey_fields (st : LoopState) (k : Option ℕ) :
    (handleKey st k).detection_history = st.detection_history ∧
    (handleKey st k).predict_count = st.predict_count ∧
    (k ≠ some 113 → (handleKey st k).is_running = st.is_running) := by
  unfold handleKey
  split
  · next hk => exact ⟨rfl, rfl, fun hne => absurd hk hne⟩
  · exact ⟨rfl, rfl, fun _ => rfl⟩

/-- C8 counterexample: a tick whose frame poll raises leaves the loop
running — the catch-all `except Exception` swallows frame-source failures
just like any other, so a Frame Source failure is not fatal to the loop,
contrary to the claim's "only a Frame Source failure is fatal". -/
theorem frame_failure_not_fatal :
    (stepTick initLoopState frameFailTick).is_running = true := rfl

/-- C8 (amended): while the loop is running, a per-tick exception from any
stage — frame source, classifier, or renderer — is caught and never
terminates the loop; a tick whose classifier call raises contributes no
history update and no inference count. The loop stops only on the quit key
or a `KeyboardInterrupt`, never on a component failure. -/
theorem tick_survives_failures (st : LoopState) (t : TickInput)
    (hrun : st.is_running = true) (hkb : t.kbInterrupt = false)
    (hq : t.key ≠ some 113) :
    (stepTick st t).is_running = true ∧
    (∀ e : Unit, t.predictResult = Except.error e →
      (stepTick st t).detection_history = st.detection_history ∧
      (stepTick st t).predict_count = st.predict_count) := by
  obtain ⟨tnow, tkb, tfr, tml, tpr, trf, tkey⟩ := t
  dsimp only at hkb hq
  subst hkb
  cases tfr with
  | error e0 =>
    refine ⟨?_, fun e hpe => ⟨?_, ?_⟩⟩ <;> simp [stepTick, hrun]
  | ok of =>
    cases of with
    | none =>
      refine ⟨?_, fun e hpe => ⟨?_, ?_⟩⟩ <;> simp [stepTick, hrun]
    | some f =>
      by_cases hg : detection_interval ≤ tnow - st.last_detection_time
      · cases tml with
        | false =>
          cases trf with
          | true =>
            refine ⟨?_, fun e hpe => ⟨?_, ?_⟩⟩ <;> simp [stepTick, hrun, hg]
          | false =>
            refine ⟨?_, fun e hpe => ⟨?_, ?_⟩⟩ <;>
              simp [stepTick, hrun, hg, handleKey, hq]
        | true =>
          cases tpr with
          | error e0 =>
            refine ⟨?_, fun e hpe => ⟨?_, ?_⟩⟩ <;> simp [stepTick, hrun, hg]
          | ok pr =>
            refine ⟨?_, fun e hpe => Except.noConfusion hpe⟩
            cases trf with
            | true => simp [stepTick, hrun, hg]
            | false => simp [stepTick, hrun, hg, handleKey, hq]
      · cases trf with
        | true =>
          refine ⟨?_, fun e hpe => ⟨?_, ?_⟩⟩ <;> simp [stepTick, hrun, hg]
        | false =>
          refine ⟨?_, fun e hpe => ⟨?_, ?_⟩⟩ <;>
            simp [stepTick, hrun, hg, handleKey, hq]

/-- Witness for C8: a concrete tick whose classifier raises leaves the
fresh loop running with an unchanged (empty) history. -/
theorem tick_survives_failures_witness :
    (stepTick initLoopState predictFailTick).is_running = true ∧
    (stepTick initLoopState predictFailTick).detection_history = [] :=
  ⟨(tick_survives_failures initLoopState predictFailTick rfl rfl
      (by simp [predictFailTick])).1,
    ((tick_survives_failures initLoopState predictFailTick rfl rfl
      (by simp [predictFailTick])).2 () rfl).1⟩

theorem throttle_inv (times : List ℚ) :
    ∀ (t0 tmax : ℚ) (st : LoopState),
    (∀ τ ∈ times, t0 ≤ τ ∧ τ ≤ tmax) →
    (0 < st.predict_count →
      t0 + ((st.predict_count : ℚ) - 1) * detection_interval ≤
        st.last_detection_time ∧
      st.last_detection_time ≤ tmax) →
    (0 < ((times.map mkThrottleTick).foldl stepTick st).predict_count →
      t0 + ((((times.map mkThrottleTick).foldl stepTick st).predict_count : ℚ)
          - 1) * detection_interval ≤
        ((times.map mkThrottleTick).foldl stepTick st).last_detection_time ∧
      ((times.map mkThrottleTick).foldl stepTick st).last_detection_time ≤
        tmax) := by
  induction times with
  | nil =>
    intro t0 tmax st hb hinv
    simpa using hinv
  | cons τ ts ih =>
    intro t0 tmax st hb hinv
    rw [List.map_cons, List.foldl_cons]
    have hτ := hb τ (by simp)
    refine ih t0 tmax (stepTick st (mkThrottleTick τ))
      (fun x hx => hb x (by simp [hx])) ?_
    by_cases hrn : st.is_running = false
    · rw [show stepTick st (mkThrottleTick τ) = st from by simp [stepTick, hrn]]
      exact hinv
    · by_cases hg : detection_interval ≤ τ - st.last_detection_time
      · have hstep : stepTick st (mkThrottleTick τ) =
            { st with
              detection_history := update_detection_history
                st.detection_history ⟨"object", 9/10, τ⟩,
              last_detection_time := τ,
              predict_count := st.predict_count + 1 } := by
          simp [stepTick, mkThrottleTick, hrn, hg, handleKey]
        rw [hstep]
        intro hpos
        dsimp only
        refine ⟨?_, hτ.2⟩
        by_cases hc : 0 < st.predict_count
        · have h1 := (hinv hc).1
          simp only [detection_interval] at h1 hg ⊢
          push_cast
          linarith
        · have hc0 : st.predict_count = 0 := by omega
          rw [hc0]
          simp only [detection_interval]
          push_cast
          linarith [hτ.1]
      · have hstep : stepTick st (mkThrottleTick τ) = st := by
          simp [stepTick, mkThrottleTick, hrn, hg, handleKey]
        rw [hstep]
        exact hinv

/-- C9: over any 2.0-second run of ticks every 0.05 s (40 ticks starting at
any `t0`), the classifier is invoked at most 4 times; and on any single
tick the inference count rises only when at least `detection_interval`
has elapsed since the last inference. -/
theorem inference_throttling (t0 : ℚ) :
    (runThrottle t0).predict_count ≤ 4 ∧
    (∀ (st : LoopState) (t : TickInput),
      st.predict_count < (stepTick st t).predict_count →
      detection_interval ≤ t.now - st.last_detection_time) := by
  constructor
  · have hb : ∀ τ ∈ throttleTimes t0, t0 ≤ τ ∧ τ ≤ t0 + 39/20 := by
      intro τ hτ
      rw [throttleTimes] at hτ
      obtain ⟨k, hk, rfl⟩ := List.mem_map.mp hτ
      obtain ⟨a, ha, rfl⟩ : ∃ a : ℕ, a < 40 ∧ k = (a : ℚ) := by simpa using hk
      have h0 : (0 : ℚ) ≤ (a : ℚ) := Nat.cast_nonneg a
      have h39 : (a : ℚ) ≤ 39 := by
        exact_mod_cast (by omega : a ≤ 39)
      constructor
      · linarith
      · linarith
    have hinv := throttle_inv (throttleTimes t0) t0 (t0 + 39/20) initLoopState
      hb (by intro h0; simp [initLoopState] at h0)
    rw [runThrottle]
    by_cases hc : 0 <
        (((throttleTimes t0).map mkThrottleTick).foldl stepTick
          initLoopState).predict_count
    · obtain ⟨h1, h2⟩ := hinv hc
      simp only [detection_interval] at h1
      have h4 : ((((throttleTimes t0).map mkThrottleTick).foldl stepTick
          initLoopState).predict_count : ℚ) ≤ 49/10 := by linarith
      have h5q : ((((throttleTimes t0).map mkThrottleTick).foldl stepTick
          initLoopState).predict_count : ℚ) < 5 :=
        lt_of_le_of_lt h4 (by norm_num)
      have h5 : (((throttleTimes t0).map mkThrottleTick).foldl stepTick
          initLoopState).predict_count < 5 := by exact_mod_cast h5q
      omega
    · omega
  · intro st t hlt
    obtain ⟨tnow, tkb, tfr, tml, tpr, trf, tkey⟩ := t
    dsimp only
    by_cases hrn : st.is_running = false
    · simp [stepTick, hrn] at hlt
    · cases tkb with
      | true => simp [stepTick, hrn] at hlt
      | false =>
        cases tfr with
        | error e => simp [stepTick, hrn] at hlt
        | ok of =>
          cases of with
          | none => simp [stepTick, hrn] at hlt
          | some f =>
            by_cases hg : detection_interval ≤ tnow - st.last_detection_time
            · exact hg
            · exfalso
              have hhk := (handleKey_fields st tkey).2.1
              cases trf with
              | true => simp [stepTick, hrn, hg] at hlt
              | false => simp [stepTick, hrn, hg, hhk] at hlt

/-- Witness for C9: the 2-second run starting at t0 = 0 makes at most 4
inferences, and a concrete tick that does invoke the classifier has at
least the detection interval elapsed. -/
theorem inference_throttling_witness :
    (runThrottle 0).predict_count ≤ 4 ∧
    detection_interval ≤ (mkThrottleTick 5).now -
      initLoopState.last_detection_time :=
  ⟨(inference_throttling 0).1,
    (inference_throttling 0).2 initLoopState (mkThrottleTick 5)
      (by
        norm_num [stepTick, initLoopState, mkThrottleTick, handleKey,
          detection_interval, update_detection_history]
        simp)⟩

/-- C10: once `update_detection` has stored a detection, every call to
`get_current_detection` raises `AttributeError` — the stored value is a
tuple and the method calls `.copy()` on it — and `get_current_detection`
returns `None` exactly when no detection has ever been stored. -/
theorem stored_detection_raises (st : CameraWindowState) (name : String)
    (conf : ℚ) :
    (∃ msg, get_current_detection (update_detection st name conf) =
      Except.error (PyError.attributeError msg)) ∧
    (get_current_detection st = Except.ok none ↔
      st.current_detection = none) := by
  constructor
  · exact ⟨"tuple object has no attribute copy", rfl⟩
  · cases hd : st.current_detection with
    | none => simp [get_current_detection, hd]
    | some d => simp [get_current_detection, hd, tupleCopy, Except.map]

end ObjectDetection
